import Mathlib

/-!
Verification development for the CoordTrans repository.

Part 1 models the frontend single-query and upload logic of
`frontend/src/App.jsx` (the handlers `onFinishGeo`, `onFinishRegeo`,
`beforeUpload` and the loading-flag guard around them).

JavaScript numbers produced by `Number(s)` on the validated inputs are
modelled as exact decimal values `num / 10 ^ scale` (structure `Dec`).
This is faithful to IEEE-754 doubles for decimal literals of up to 15
significant digits, which round-trip through a double to their canonical
shortest decimal form; the model parses decimal literals with optional
sign, fraction and exponent (the exotic `Number` forms — hexadecimal,
binary, octal, `Infinity` — are outside the model).  String trimming is
modelled over ASCII whitespace (JS trims the larger Unicode class, which
the inputs of interest do not contain); string operations are written as
structural recursions over character lists so that all definitions
evaluate by kernel reduction.
-/

namespace CoordTrans

/-- Exact decimal number: the value `num / 10 ^ scale`.  Model of the
JavaScript number obtained from `Number(s)` on a decimal literal. -/
structure Dec where
  num : Int
  scale : Nat
deriving DecidableEq, Repr

/-- Rational value of a `Dec`. -/
def Dec.toRat (d : Dec) : ℚ :=
  (d.num : ℚ) / (10 : ℚ) ^ d.scale

/-- The comparison `d < z` of a decimal value against an integer bound,
computed exactly on integers (`num / 10 ^ scale < z ↔ num < z * 10 ^ scale`). -/
def Dec.ltInt (d : Dec) (z : Int) : Bool :=
  d.num < z * 10 ^ d.scale

/-- The comparison `z < d` of an integer bound against a decimal value,
computed exactly on integers. -/
def Dec.gtInt (d : Dec) (z : Int) : Bool :=
  z * 10 ^ d.scale < d.num

/-- Trim whitespace from both ends of a character list;
model of JavaScript `String.prototype.trim`. -/
def trimChars (cs : List Char) : List Char :=
  ((cs.dropWhile Char.isWhitespace).reverse.dropWhile Char.isWhitespace).reverse

/-- Model of JavaScript `s.trim()`. -/
def jsTrim (s : String) : String :=
  String.mk (trimChars s.data)

/-- Model of JavaScript `s.split(',')`: the comma-separated segments,
with `[""]` for the empty string. -/
def splitComma : List Char → List (List Char)
  | [] => [[]]
  | c :: cs =>
    match splitComma cs with
    | [] => [[]]
    | seg :: rest => if c = ',' then [] :: seg :: rest else (c :: seg) :: rest

/-- Split a character list into its leading run of ASCII digits and the rest. -/
def takeDigits : List Char → List Char × List Char
  | [] => ([], [])
  | c :: cs =>
    if c.isDigit then
      let p := takeDigits cs
      (c :: p.1, p.2)
    else ([], c :: cs)

/-- Numeric value of a list of ASCII digit characters. -/
def natOfDigits (ds : List Char) : Nat :=
  ds.foldl (fun a c => 10 * a + (c.toNat - '0'.toNat)) 0

/-- Parse the digits-and-dot mantissa of a JS decimal literal:
returns (digit value, number of fraction digits, remaining input), or
`none` when no digit is present (as in `Number("-")` or `Number(".")`). -/
def parseMantissa (cs : List Char) : Option (Nat × Nat × List Char) :=
  let ip := takeDigits cs
  match ip.2 with
  | '.' :: rest2 =>
    let fp := takeDigits rest2
    if ip.1.isEmpty && fp.1.isEmpty then none
    else some (natOfDigits (ip.1 ++ fp.1), fp.1.length, fp.2)
  | _ => if ip.1.isEmpty then none else some (natOfDigits ip.1, 0, ip.2)

/-- Parse a full run of digits as a natural number;
fails unless the whole remaining input is consumed. -/
def parseNatAll (cs : List Char) : Option Int :=
  let p := takeDigits cs
  if p.1.isEmpty || !p.2.isEmpty then none else some (natOfDigits p.1 : Int)

/-- Parse an optionally signed integer consuming the whole input. -/
def parseSignedAll (cs : List Char) : Option Int :=
  match cs with
  | '+' :: rest => parseNatAll rest
  | '-' :: rest => (parseNatAll rest).map Int.neg
  | _ => parseNatAll cs

/-- Parse the optional exponent suffix (`e`/`E` then a signed integer);
the empty input means exponent 0. -/
def parseExpPart (cs : List Char) : Option Int :=
  match cs with
  | [] => some 0
  | 'e' :: rest => parseSignedAll rest
  | 'E' :: rest => parseSignedAll rest
  | _ => none

/-- Combine sign, mantissa and exponent into an exact decimal value. -/
def mkDec (neg : Bool) (m : Nat) (fracLen : Nat) (e : Int) : Dec :=
  let n : Int := if neg then -(m : Int) else (m : Int)
  let sz : Int := (fracLen : Int) - e
  if sz ≤ 0 then ⟨n * 10 ^ (-sz).toNat, 0⟩ else ⟨n, sz.toNat⟩

/-- Mantissa and exponent together, from the body after the sign. -/
def parseBody (neg : Bool) (cs : List Char) : Option Dec :=
  match parseMantissa cs with
  | none => none
  | some (m, fl, rest) =>
    match parseExpPart rest with
    | none => none
    | some e => some (mkDec neg m fl e)

/-- Model of JavaScript `Number` on a character list: `none` models
`NaN`.  `Number` trims whitespace and maps the empty string to `0`. -/
def jsNumberChars (s : List Char) : Option Dec :=
  let t := trimChars s
  match t with
  | [] => some ⟨0, 0⟩
  | '-' :: cs => parseBody true cs
  | '+' :: cs => parseBody false cs
  | cs => parseBody false cs

/-- Model of JavaScript `Number(s)` on the supported decimal forms. -/
def jsNumber (s : String) : Option Dec :=
  jsNumberChars s.data

/-- Split off the trailing decimal zeros of a number:
`stripTrailing fuel a = (s, z)` with `a = s * 10 ^ z` and `s` not
divisible by 10 (for `a ≠ 0` and fuel ≥ the number of digits). -/
def stripTrailing : Nat → Nat → Nat × Nat
  | 0, a => (a, 0)
  | f + 1, a =>
    if a ≠ 0 ∧ a % 10 = 0 then
      let p := stripTrailing f (a / 10)
      (p.1, p.2 + 1)
    else (a, 0)

/-- The ASCII digit character for `k % 10`. -/
def digitChar (k : Nat) : Char :=
  Char.ofNat (48 + k % 10)

/-- Decimal digit characters of `n`, most significant first, in front
of `acc`; `fuel` bounds the recursion. -/
def natDigitsAux : Nat → Nat → List Char → List Char
  | 0, _, acc => acc
  | f + 1, n, acc =>
    if n < 10 then digitChar n :: acc
    else natDigitsAux f (n / 10) (digitChar n :: acc)

/-- Decimal digit characters of `n`, most significant first. -/
def natDigits (n : Nat) : List Char :=
  natDigitsAux (n + 1) n []

/-- Model of JavaScript template-literal rendering `` `${x}` `` of a
number, following the Number-to-String rule of ECMA-262 (6.1.6.1.20;
7.1.12.1) on the exact decimal value: with significand digits `s` (no
trailing zeros) and decimal-point position `n`, fixed notation while
`-6 < n ≤ 21` (the integer, fractional, or `0.`-prefixed form) and
exponent notation `d.ddde±k` otherwise; zero renders as "0", also for
negative zero. -/
def renderDec (d : Dec) : String :=
  if d.num = 0 then "0"
  else
    let sign := if d.num < 0 then "-" else ""
    let p := stripTrailing d.num.natAbs d.num.natAbs
    let ds := natDigits p.1
    let n : Int := (ds.length : Int) + p.2 - d.scale
    if (ds.length : Int) ≤ n ∧ n ≤ 21 then
      sign ++ String.mk ds ++
        String.mk (List.replicate (n - ds.length).toNat '0')
    else if 0 < n ∧ n ≤ 21 then
      sign ++ String.mk (ds.take n.toNat) ++ "." ++
        String.mk (ds.drop n.toNat)
    else if -6 < n ∧ n ≤ 0 then
      sign ++ "0." ++ String.mk (List.replicate (-n).toNat '0') ++
        String.mk ds
    else
      sign ++ String.mk (ds.take 1) ++
        (if ds.length = 1 then "" else "." ++ String.mk (ds.drop 1)) ++
        "e" ++ (if n - 1 < 0 then "-" else "+") ++
        String.mk (natDigits (n - 1).natAbs)

/-! Messages shown by `App.jsx` (verbatim). -/

def msgEmptyAddress : String := "请输入有效的地址"
def msgEmptyLocation : String := "请输入经纬度"
def msgFormat : String := "经纬度格式错误，请使用\"经度,纬度\"格式"
def msgNotNumber : String := "经纬度必须是数字"
def msgRange : String := "经纬度超出有效范围（经度: -180~180，纬度: -90~90）"

/-- Outcome of one invocation of `onFinishGeo`:
either silently blocked by the loading guard, or a validation warning,
or a POST of `{address, city}` to `/api/geo`. -/
inductive GeoAction where
  | blockedLoading
  | warn (msg : String)
  | request (address : String) (city : Option String)
deriving DecidableEq, Repr

/-- Outcome of one invocation of `onFinishRegeo`:
either silently blocked by the loading guard, or a validation warning,
or a POST of `{location}` to `/api/regeo`. -/
inductive RegeoAction where
  | blockedLoading
  | warn (msg : String)
  | request (location : String)
deriving DecidableEq, Repr

/-- Model of `onFinishGeo` in `App.jsx` (lines 61-91): the loading
guard, the trimmed-address validation, and the request payload
`{ address, city: values.city?.trim() || null }`. -/
def onFinishGeo (loading : Bool) (addressField cityField : Option String) :
    GeoAction :=
  if loading then .blockedLoading
  else
    let address := trimChars (addressField.getD "").data
    if address.isEmpty then .warn msgEmptyAddress
    else
      .request (String.mk address)
        (match cityField with
         | none => none
         | some c =>
           let tc := trimChars c.data
           if tc.isEmpty then none else some (String.mk tc))

/-- The fields of a reverse-geocode input:
`location.split(',').map(s => s.trim())` after the outer trim. -/
def regeoParts (locationField : Option String) : List (List Char) :=
  (splitComma (trimChars (locationField.getD "").data)).map trimChars

/-- Model of `onFinishRegeo` in `App.jsx` (lines 94-140): the loading
guard, the split/trim of the location field, the `Number` parses with
their `isNaN` checks, the range checks, and the request payload
`` `${lon},${lat}` `` built from the parsed numbers. -/
def onFinishRegeo (loading : Bool) (locationField : Option String) :
    RegeoAction :=
  if loading then .blockedLoading
  else
    let t := trimChars (locationField.getD "").data
    if t.isEmpty then .warn msgEmptyLocation
    else
      match (splitComma t).map trimChars with
      | [lonStr, latStr] =>
        match jsNumberChars lonStr, jsNumberChars latStr with
        | some lon, some lat =>
          if lon.ltInt (-180) || lon.gtInt 180 ||
              lat.ltInt (-90) || lat.gtInt 90 then .warn msgRange
          else .request (renderDec lon ++ "," ++ renderDec lat)
        | _, _ => .warn msgNotNumber
      | _ => .warn msgFormat

/-! Upload-side checks of `App.jsx`. -/

/-- ALLOWED_FILE_TYPES of `App.jsx` (lines 14-21). -/
def ALLOWED_FILE_TYPES : List String :=
  ["application/vnd.ms-excel",
   "application/vnd.openxmlformats-officedocument.spreadsheetml.sheet",
   "text/csv", ".csv", ".xls", ".xlsx"]

/-- MAX_FILE_SIZE of `App.jsx` (line 24): 10 MB. -/
def MAX_FILE_SIZE : Nat := 10 * 1024 * 1024

/-- The part of an antd upload `file` object read by `beforeUpload`:
`file.name`, `file.type` (MIME type) and `file.size` in bytes. -/
structure UploadFile where
  name : String
  type : String
  size : Nat
deriving DecidableEq, Repr

/-- Result of `beforeUpload`: `Upload.LIST_IGNORE` together with the
`message.error` text shown, or acceptance. -/
inductive UploadCheck where
  | listIgnore (errMsg : String)
  | accept
deriving DecidableEq, Repr

def msgBadType : String := "只支持 Excel (.xlsx, .xls) 或 CSV 文件"
def msgTooLarge : String := "文件大小不能超过 10MB"
def msgBadName : String := "文件名无效或过长"

/-- Model of `beforeUpload` in `App.jsx` (lines 143-170): type check
first, then size check against MAX_FILE_SIZE, then file-name check.
`file.name.toLowerCase().endsWith(type)` and `file.type === type` are
modelled on character lists. -/
def beforeUpload (f : UploadFile) : UploadCheck :=
  let isValidType := ALLOWED_FILE_TYPES.any fun ty =>
    match ty.data with
    | '.' :: _ => ty.data.isSuffixOf (f.name.data.map Char.toLower)
    | _ => f.type.data == ty.data
  if !isValidType then .listIgnore msgBadType
  else if MAX_FILE_SIZE < f.size then .listIgnore msgTooLarge
  else if f.name.data.isEmpty || 200 < f.name.data.length then
    .listIgnore msgBadName
  else .accept

/-- Composition with the antd Upload flow: `customRequest`, which posts
the file to `/api/batch/file/<kind>`, runs only for files that
`beforeUpload` accepted; a `LIST_IGNORE` file is never uploaded.
Returns the request path dispatched, if any. -/
def uploadDispatch (f : UploadFile) (kind : String) : Option String :=
  match beforeUpload f with
  | .accept => some ("/api/batch/file/" ++ kind)
  | .listIgnore _ => none

/-!
The single-query loading flag as a transition system.  `App.jsx` keeps
one `loading` flag shared by both single-query handlers: each handler
returns immediately while it is set, sets it on an accepted submission,
and clears it in a `finally` block when the pending request settles
(success or failure).  `inFlight` is ghost state counting requests
issued but not yet settled.
-/

/-- A network request issued by a single-query handler. -/
inductive NetRequest where
  | geo (address : String) (city : Option String)
  | regeo (location : String)
deriving DecidableEq, Repr

/-- UI events acting on the loading flag: the two form submissions and
the settling of the pending request (the `finally` block runs on both
the success and the failure path). -/
inductive UiEvent where
  | submitGeo (addressField cityField : Option String)
  | submitRegeo (locationField : Option String)
  | settleSuccess
  | settleFailure
deriving DecidableEq, Repr

/-- State of the single-query UI: the `loading` flag of `App.jsx` and
the ghost count of issued-but-unsettled requests. -/
structure UiState where
  loading : Bool
  inFlight : Nat
deriving DecidableEq, Repr

/-- Initial state: `useState(false)`, nothing in flight. -/
def initUi : UiState := ⟨false, 0⟩

/-- One UI event: submissions go through `onFinishGeo`/`onFinishRegeo`
(which consult the current loading flag) and issue a request exactly
when the handler reaches its `api.post` call; settling runs the
`finally` block, clearing the flag. -/
def uiStep (s : UiState) : UiEvent → UiState × Option NetRequest
  | .submitGeo a c =>
    match onFinishGeo s.loading a c with
    | .request addr city => (⟨true, s.inFlight + 1⟩, some (.geo addr city))
    | _ => (s, none)
  | .submitRegeo l =>
    match onFinishRegeo s.loading l with
    | .request body => (⟨true, s.inFlight + 1⟩, some (.regeo body))
    | _ => (s, none)
  | .settleSuccess => (⟨false, s.inFlight - 1⟩, none)
  | .settleFailure => (⟨false, s.inFlight - 1⟩, none)

/-- State after a sequence of UI events. -/
def uiRun (s : UiState) (es : List UiEvent) : UiState :=
  es.foldl (fun t e => (uiStep t e).1) s

/-- Invariant of the single-query UI: never more than one request in
flight, and the loading flag is set exactly while one is. -/
def UiInv (s : UiState) : Prop :=
  s.inFlight ≤ 1 ∧ (s.loading = true ↔ s.inFlight = 1)

end CoordTrans

namespace CoordTrans.Backend

/-!
The batch pipeline (Batch Executor, Provider Client, Result Exporter)
lives in `backend/app/` which is not part of the sources available
here; the definitions below are modelled from the specification
(§3, §4.1, §4.3, §4.4, §5) and marked as such.
-/

/-- Modelled from the spec: `Query` (§3), one of a geocode query with
address and optional city, or a reverse-geocode query with coordinates
(floats modelled as exact rationals). -/
inductive Query where
  | geocode (address : String) (city : Option String)
  | revGeocode (longitude latitude : ℚ)
deriving DecidableEq

/-- Modelled from the spec: the normalized success payload (§4.1), a
mapping of normalized field names to values. -/
def Payload := List (String × String)
deriving DecidableEq

/-- Modelled from the spec: `ProviderResult` status (§3). -/
inductive PStatus where
  | success
  | failure
deriving DecidableEq

/-- Modelled from the spec: `ProviderResult` (§3):
status, payload for successes, error reason for failures. -/
structure ProviderResult where
  status : PStatus
  payload : Option Payload
  errorReason : Option String
deriving DecidableEq

/-- A failure result carrying a reason, as recorded for validation
errors and unrecoverable provider failures. -/
def mkFailure (reason : String) : ProviderResult :=
  ⟨.failure, none, some reason⟩

/-- A success result carrying the normalized payload. -/
def mkSuccess (p : Payload) : ProviderResult :=
  ⟨.success, some p, none⟩

/-- Modelled from the spec: `Row` (§3): stable 0-based index, raw
column data, and the validation outcome (exactly one of `query` /
`validationError` is set after validation). -/
structure Row where
  index : Nat
  rawFields : List (String × String)
  query : Option Query
  validationError : Option String
deriving DecidableEq

/-- The validation outcome of a row: the query to dispatch, or the
validation failure reason recorded without any provider call.  A row
with neither field set (which §3 excludes) is treated as a failure. -/
def rowCheck (r : Row) : Query ⊕ String :=
  match r.validationError with
  | some e => .inr e
  | none =>
    match r.query with
    | some q => .inl q
    | none => .inr "missing query"

/-- `rowCheck` at a list position. -/
def rowCheckAt (rows : List Row) (i : Nat) : Option (Query ⊕ String) :=
  (rows.get? i).map rowCheck

/-- Modelled from the spec: the external provider as observed through
Provider Client: `p i q` is the result returned for the one call made
on behalf of row `i` with query `q` (§4.1, §4.3).  Each row's call is a
distinct network event, so results are indexed per row. -/
def Provider := Nat → Query → ProviderResult

/-- The result the pipeline records for row `i`: the validation failure
for invalid rows (no provider call), the provider's answer otherwise. -/
def expectedAt (p : Provider) (rows : List Row) (i : Nat) : ProviderResult :=
  match rowCheckAt rows i with
  | some (.inl q) => p i q
  | some (.inr e) => mkFailure e
  | none => mkFailure "missing row"

/-- Modelled from the spec: state of the Batch Executor's
admission-controlled worker pool (§4.3, §5): `next` is the number of
rows already admitted (rows are admitted in input order), `inFlight`
the indices with a provider call outstanding, `slots` the ordered
collector, one slot per input row. -/
structure ExecState where
  next : Nat
  inFlight : List Nat
  slots : List (Option ProviderResult)
deriving DecidableEq

/-- Initial executor state: nothing admitted, nothing in flight,
every slot empty. -/
def initExec (rows : List Row) : ExecState :=
  ⟨0, [], List.replicate rows.length none⟩

/-- Modelled from the spec: one step of the Batch Executor (§4.3, §5).
A row with a validation error is recorded immediately and never sent to
Provider Client; a valid row is admitted only while fewer than `limit`
calls are in flight; a completion (in any order — this is the
scheduler's nondeterministic choice) fills exactly the completing row's
slot with the provider's result. -/
inductive ExecStep (rows : List Row) (p : Provider) (limit : Nat) :
    ExecState → ExecState → Prop where
  | dispatchInvalid {s : ExecState} {e : String} :
    rowCheckAt rows s.next = some (.inr e) →
    ExecStep rows p limit s
      ⟨s.next + 1, s.inFlight, s.slots.set s.next (some (mkFailure e))⟩
  | dispatchValid {s : ExecState} {q : Query} :
    rowCheckAt rows s.next = some (.inl q) →
    s.inFlight.length < limit →
    ExecStep rows p limit s ⟨s.next + 1, s.next :: s.inFlight, s.slots⟩
  | complete {s : ExecState} {i : Nat} {q : Query} :
    i ∈ s.inFlight →
    rowCheckAt rows i = some (.inl q) →
    ExecStep rows p limit s
      ⟨s.next, s.inFlight.erase i, s.slots.set i (some (p i q))⟩

/-- The batch is finished: every row admitted, no call outstanding. -/
def ExecTerminal (rows : List Row) (s : ExecState) : Prop :=
  s.next = rows.length ∧ s.inFlight = []

/-- Executor states reachable from the initial state. -/
def ExecReach (rows : List Row) (p : Provider) (limit : Nat)
    (s : ExecState) : Prop :=
  Relation.ReflTransGen (ExecStep rows p limit) (initExec rows) s

/-- Inductive invariant of the executor: slot bookkeeping (a slot is
filled exactly when its row was admitted and is no longer in flight,
and then it holds that row's recorded result), in-flight indices are
admitted, valid, distinct, and within the concurrency limit. -/
structure ExecInv (rows : List Row) (p : Provider) (limit : Nat)
    (s : ExecState) : Prop where
  slots_len : s.slots.length = rows.length
  next_le : s.next ≤ rows.length
  flight_lt : ∀ i ∈ s.inFlight, i < s.next
  flight_valid : ∀ i ∈ s.inFlight, ∃ q, rowCheckAt rows i = some (.inl q)
  flight_nodup : s.inFlight.Nodup
  flight_le : s.inFlight.length ≤ limit
  slots_spec : ∀ i, i < rows.length →
    s.slots[i]? =
      some (if i < s.next ∧ i ∉ s.inFlight
            then some (expectedAt p rows i) else none)

/-- Modelled from the spec: `BatchOutcome` (§3): the ordered sequence
of `{ row, result }` pairs the collector assembles, index-aligned with
the input rows. -/
def outcomeOf (rows : List Row) (s : ExecState) :
    List (Row × Option ProviderResult) :=
  rows.zip s.slots

/-- Accumulate the field names of one success payload into the stable
column set, keeping first-seen order and dropping duplicates. -/
def addCols (acc : List String) (fields : Payload) : List String :=
  fields.foldl (fun a f => if a.contains f.1 then a else a ++ [f.1]) acc

/-- Modelled from the spec: the stable success column set of one export
(§4.4): the union of the normalized field names over all success rows. -/
def successColumns (o : List (Row × Option ProviderResult)) : List String :=
  o.foldl
    (fun acc pr =>
      match pr.2 with
      | some ⟨.success, some fields, _⟩ => addCols acc fields
      | _ => acc) []

/-- Field lookup with the empty marker for missing fields (§4.4:
missing fields are filled, never omitted). -/
def lookupField (fields : Payload) (c : String) : String :=
  match fields.lookup c with
  | some v => v
  | none => ""

/-- Modelled from the spec: one exported row (§4.4): the original
columns, then an error column (the failure reason, empty for
successes), then the flattened success columns. -/
def exportRow (cols : List String) (pr : Row × Option ProviderResult) :
    List String :=
  pr.1.rawFields.map Prod.snd ++
    match pr.2 with
    | some ⟨.success, some fields, _⟩ => "" :: cols.map (lookupField fields)
    | some res =>
      (match res.errorReason with
       | some r => r
       | none => "failure") :: cols.map (fun _ => "")
    | none => "" :: cols.map (fun _ => "")

/-- Modelled from the spec: `export(outcome) -> file bytes` (§4.4),
with the file represented as its grid of cells; a pure function of the
outcome. -/
def exportFile (o : List (Row × Option ProviderResult)) :
    List (List String) :=
  o.map (exportRow (successColumns o))

/-!
Provider Client (§4.1), modelled from the spec: the network is an
oracle giving the outcome of each outbound attempt.
-/

/-- Modelled from the spec: the outcome of one outbound attempt as
Provider Client classifies it: a usable response, a transient failure
(network/timeout failure or provider-reported transient error such as a
rate-limit signal), or an unrecoverable provider failure. -/
inductive AttemptResult where
  | ok (payload : Payload)
  | transient (reason : String)
  | fatal (reason : String)
deriving DecidableEq

/-- Whether an attempt outcome is in the retried class. -/
def AttemptResult.isTransient : AttemptResult → Bool
  | .transient _ => true
  | _ => false

/-- Modelled from the spec: one invocation of Provider Client
`fetch(query)` (§4.1) against the attempt oracle `env` (`env n` is the
outcome of outbound attempt `n`).  The first attempt is made always; a
single retry is taken only when the first attempt failed transiently;
every failure is returned as a `Failure` value with a reason (the
model is a total function: nothing is thrown).  Returns the
`ProviderResult` and the number of outbound attempts made.  The fixed
delay before the retry is timing behaviour outside this model. -/
def fetchRun (env : Nat → AttemptResult) : ProviderResult × Nat :=
  match env 0 with
  | .ok p => (mkSuccess p, 1)
  | .fatal r => (mkFailure r, 1)
  | .transient _ =>
    match env 1 with
    | .ok p => (mkSuccess p, 2)
    | .transient r => (mkFailure r, 2)
    | .fatal r => (mkFailure r, 2)

/-- Modelled from the spec: the configured maximum batch row count
(`MAX_BATCH_SIZE`, default 1000 — README configuration table). -/
def MAX_BATCH_SIZE : Nat := 1000

/-!
Helper lemmas: the executor invariant, its preservation, the terminal
slot contents, and progress to a terminal state.
-/

lemma rowCheckAt_lt {rows : List Row} {i : Nat} {c : Query ⊕ String}
    (h : rowCheckAt rows i = some c) : i < rows.length := by
  unfold rowCheckAt at h
  cases hg : rows.get? i with
  | none => rw [hg] at h; simp at h
  | some r => exact (List.get?_eq_some.mp hg).1

lemma execInv_init (rows : List Row) (p : Provider) (limit : Nat) :
    ExecInv rows p limit (initExec rows) := by
  refine ⟨by simp [initExec], by simp [initExec], by simp [initExec],
    by simp [initExec], by simp [initExec], by simp [initExec], ?_⟩
  intro i hi
  simp [initExec, hi]

lemma execInv_step {rows : List Row} {p : Provider} {limit : Nat}
    {s t : ExecState} (hs : ExecInv rows p limit s)
    (hstep : ExecStep rows p limit s t) : ExecInv rows p limit t := by
  cases hstep with
  | dispatchInvalid he =>
    rename_i e
    have hnext : s.next < rows.length := rowCheckAt_lt he
    have hnotin : s.next ∉ s.inFlight :=
      fun hmem => absurd (hs.flight_lt _ hmem) (lt_irrefl _)
    refine ⟨by simp [hs.slots_len], by dsimp only; omega,
      fun i hmem => Nat.lt_succ_of_lt (hs.flight_lt i hmem),
      hs.flight_valid, hs.flight_nodup, hs.flight_le, ?_⟩
    intro i hi
    dsimp only at hi ⊢
    by_cases hij : i = s.next
    · subst hij
      rw [List.getElem?_set_eq_of_lt _ (by rw [hs.slots_len]; exact hnext)]
      simp [hnotin, expectedAt, he]
    · rw [List.getElem?_set_ne (Ne.symm hij), hs.slots_spec i hi]
      have hiff : (i < s.next ∧ i ∉ s.inFlight) ↔
          (i < s.next + 1 ∧ i ∉ s.inFlight) :=
        and_congr_left' (by omega)
      exact congrArg some (if_congr hiff rfl rfl)
  | dispatchValid he hlt =>
    rename_i q
    have hnext : s.next < rows.length := rowCheckAt_lt he
    have hnotin : s.next ∉ s.inFlight :=
      fun hmem => absurd (hs.flight_lt _ hmem) (lt_irrefl _)
    refine ⟨hs.slots_len, by dsimp only; omega, ?_, ?_,
      List.nodup_cons.mpr ⟨hnotin, hs.flight_nodup⟩, by simpa using hlt, ?_⟩
    · intro i hmem
      dsimp only at hmem ⊢
      rcases List.mem_cons.mp hmem with h | h
      · omega
      · exact Nat.lt_succ_of_lt (hs.flight_lt i h)
    · intro i hmem
      dsimp only at hmem
      rcases List.mem_cons.mp hmem with h | h
      · exact ⟨q, h ▸ he⟩
      · exact hs.flight_valid i h
    · intro i hi
      dsimp only
      rw [hs.slots_spec i hi]
      have hiff : (i < s.next ∧ i ∉ s.inFlight) ↔
          (i < s.next + 1 ∧ i ∉ s.next :: s.inFlight) := by
        simp only [List.mem_cons, not_or]
        constructor
        · rintro ⟨h1, h3⟩; exact ⟨by omega, by omega, h3⟩
        · rintro ⟨h1, h2, h3⟩; exact ⟨by omega, h3⟩
      exact congrArg some (if_congr hiff rfl rfl)
  | complete hmem hv =>
    rename_i i₀ q
    have hiN : i₀ < rows.length := rowCheckAt_lt hv
    refine ⟨by simp [hs.slots_len], hs.next_le,
      fun i hm => hs.flight_lt i (List.mem_of_mem_erase hm),
      fun i hm => hs.flight_valid i (List.mem_of_mem_erase hm),
      hs.flight_nodup.erase i₀, ?_, ?_⟩
    · have h1 := List.length_erase_of_mem hmem
      have h2 := hs.flight_le
      dsimp only
      omega
    · intro i hi
      dsimp only
      by_cases hii : i = i₀
      · subst hii
        have h1 : i < s.next := hs.flight_lt _ hmem
        have h2 : i ∉ s.inFlight.erase i :=
          fun hc => (hs.flight_nodup.mem_erase_iff.mp hc).1 rfl
        rw [List.getElem?_set_eq_of_lt _ (by rw [hs.slots_len]; exact hiN)]
        simp [h1, h2, expectedAt, hv]
      · rw [List.getElem?_set_ne (Ne.symm hii), hs.slots_spec i hi]
        have hmm : i ∉ s.inFlight ↔ i ∉ s.inFlight.erase i₀ := by
          rw [hs.flight_nodup.mem_erase_iff]
          simp [hii]
        exact congrArg some (if_congr (and_congr_right' hmm) rfl rfl)

lemma execInv_reach {rows : List Row} {p : Provider} {limit : Nat}
    {s : ExecState} (h : ExecReach rows p limit s) :
    ExecInv rows p limit s := by
  induction h with
  | refl => exact execInv_init rows p limit
  | tail _ hstep ih => exact execInv_step ih hstep

lemma terminal_slots {rows : List Row} {p : Provider} {limit : Nat}
    {s : ExecState} (hinv : ExecInv rows p limit s)
    (hterm : ExecTerminal rows s) :
    ∀ i, i < rows.length →
      s.slots[i]? = some (some (expectedAt p rows i)) := by
  intro i hi
  rcases hterm with ⟨h1, h2⟩
  rw [hinv.slots_spec i hi, if_pos ⟨h1 ▸ hi, by simp [h2]⟩]

lemma exec_progress {rows : List Row} {p : Provider} {limit : Nat}
    (hlim : 1 ≤ limit) :
    ∀ n (s : ExecState),
      2 * (rows.length - s.next) + s.inFlight.length ≤ n →
      ExecInv rows p limit s →
      ∃ t, Relation.ReflTransGen (ExecStep rows p limit) s t ∧
        ExecTerminal rows t := by
  intro n
  induction n with
  | zero =>
    intro s hm hinv
    refine ⟨s, .refl, ?_, List.eq_nil_of_length_eq_zero (by omega)⟩
    have := hinv.next_le
    omega
  | succ n ih =>
    intro s hm hinv
    cases hfl : s.inFlight with
    | cons i rest =>
      have hmem : i ∈ s.inFlight := by rw [hfl]; exact List.mem_cons_self i rest
      obtain ⟨q, hq⟩ := hinv.flight_valid i hmem
      have hstep := @ExecStep.complete rows p limit s i q hmem hq
      have hinvt := execInv_step hinv hstep
      have hlen := List.length_erase_of_mem hmem
      have hpos : 1 ≤ s.inFlight.length := by rw [hfl]; simp
      obtain ⟨u, hru, hterm⟩ := ih _ (by dsimp only; rw [hlen]; omega) hinvt
      exact ⟨u, .head hstep hru, hterm⟩
    | nil =>
      by_cases hnext : s.next = rows.length
      · exact ⟨s, .refl, hnext, hfl⟩
      · have hlt : s.next < rows.length :=
          lt_of_le_of_ne hinv.next_le hnext
        have hg : rows.get? s.next = some (rows.get ⟨s.next, hlt⟩) :=
          List.get?_eq_get hlt
        have hc : rowCheckAt rows s.next =
            some (rowCheck (rows.get ⟨s.next, hlt⟩)) := by
          unfold rowCheckAt
          rw [hg]
          rfl
        cases hcr : rowCheck (rows.get ⟨s.next, hlt⟩) with
        | inr e =>
          have hstep := @ExecStep.dispatchInvalid rows p limit s e (hcr ▸ hc)
          have hinvt := execInv_step hinv hstep
          have hm2 : s.inFlight.length = 0 := by rw [hfl]; rfl
          obtain ⟨u, hru, hterm⟩ := ih _ (by
            dsimp only
            omega) hinvt
          exact ⟨u, .head hstep hru, hterm⟩
        | inl q =>
          have hstep := @ExecStep.dispatchValid rows p limit s q (hcr ▸ hc)
            (by rw [hfl]; simpa using hlim)
          have hinvt := execInv_step hinv hstep
          have hm2 : s.inFlight.length = 0 := by rw [hfl]; rfl
          obtain ⟨u, hru, hterm⟩ := ih _ (by
            dsimp only
            simp only [List.length_cons]
            omega) hinvt
          exact ⟨u, .head hstep hru, hterm⟩

end CoordTrans.Backend

namespace CoordTrans.Backend

/-- The recorded result of a row other than `k` does not depend on the
provider's behaviour on row `k`'s call. -/
lemma expectedAt_congr {rows : List Row} {p₁ p₂ : Provider} {k : Nat}
    (hagree : ∀ j q, j ≠ k → p₁ j q = p₂ j q) {j : Nat} (hj : j ≠ k) :
    expectedAt p₁ rows j = expectedAt p₂ rows j := by
  unfold expectedAt
  cases h : rowCheckAt rows j with
  | none => rfl
  | some c =>
    cases c with
    | inl q => exact hagree j q hj
    | inr e => rfl

/-- In a terminal state the collector holds exactly the expected result
in every slot. -/
lemma terminal_slots_list {rows : List Row} {p : Provider} {limit : Nat}
    {s : ExecState} (hinv : ExecInv rows p limit s)
    (hterm : ExecTerminal rows s) :
    s.slots = (List.range rows.length).map
      (fun i => some (expectedAt p rows i)) := by
  apply List.ext_getElem?
  intro i
  by_cases hi : i < rows.length
  · rw [terminal_slots hinv hterm i hi]
    simp [List.getElem?_range, hi]
  · have h1 : rows.length ≤ i := le_of_not_lt hi
    rw [List.getElem?_eq_none (by rw [hinv.slots_len]; exact h1),
      List.getElem?_eq_none (by simpa using h1)]

/-- A terminal state of the executor is reachable whenever the
concurrency limit admits at least one call. -/
lemma exec_exists (rows : List Row) (p : Provider) {limit : Nat}
    (hlim : 1 ≤ limit) :
    ∃ t, ExecReach rows p limit t ∧ ExecTerminal rows t :=
  exec_progress hlim (2 * rows.length) (initExec rows)
    (by simp [initExec]) (execInv_init rows p limit)

/-- Any reachable terminal state carries the fully determined outcome:
one entry per input row, entry `i` pairing row `i` with its expected
result. -/
lemma exec_correct {rows : List Row} {p : Provider} {limit : Nat}
    {t : ExecState} (hr : ExecReach rows p limit t)
    (ht : ExecTerminal rows t) :
    (outcomeOf rows t).length = rows.length ∧
    ∀ i r, rows[i]? = some r →
      (outcomeOf rows t)[i]? = some (r, some (expectedAt p rows i)) := by
  have hinv := execInv_reach hr
  constructor
  · unfold outcomeOf
    rw [List.length_zip, hinv.slots_len]
    exact Nat.min_self _
  · intro i r hri
    have hi : i < rows.length := (List.getElem?_eq_some.mp hri).1
    have hs := terminal_slots hinv ht i hi
    exact List.getElem?_zip_eq_some.mpr ⟨hri, hs⟩

end CoordTrans.Backend

namespace CoordTrans

/-- The integer comparison implementing `lon < bound` agrees with the
rational value of the decimal. -/
lemma Dec.ltInt_iff {d : Dec} {z : Int} :
    d.ltInt z = true ↔ d.toRat < (z : ℚ) := by
  simp only [Dec.ltInt, Dec.toRat, decide_eq_true_eq]
  rw [div_lt_iff₀ (by positivity)]
  constructor <;> intro h <;> exact_mod_cast h

/-- The integer comparison implementing `bound < lon` agrees with the
rational value of the decimal. -/
lemma Dec.gtInt_iff {d : Dec} {z : Int} :
    d.gtInt z = true ↔ (z : ℚ) < d.toRat := by
  simp only [Dec.gtInt, Dec.toRat, decide_eq_true_eq]
  rw [lt_div_iff₀ (by positivity)]
  constructor <;> intro h <;> exact_mod_cast h

/-- While the loading flag is set, `onFinishGeo` returns at its first
guard. -/
lemma onFinishGeo_loading (a c : Option String) :
    onFinishGeo true a c = .blockedLoading := rfl

/-- While the loading flag is set, `onFinishRegeo` returns at its first
guard. -/
lemma onFinishRegeo_loading (l : Option String) :
    onFinishRegeo true l = .blockedLoading := rfl

end CoordTrans

namespace CoordTrans

/-- Digit characters are never a space or a comma. -/
lemma digitChar_ne (k : Nat) : digitChar k ≠ ' ' ∧ digitChar k ≠ ',' := by
  have hall : ∀ r, r < 10 → Char.ofNat (48 + r) ≠ ' ' ∧
      Char.ofNat (48 + r) ≠ ',' := by decide
  unfold digitChar
  exact hall _ (Nat.mod_lt _ (by norm_num))

/-- Every character produced by `natDigitsAux` is from the accumulator
or a digit character. -/
lemma mem_natDigitsAux {c : Char} :
    ∀ (f n : Nat) (acc : List Char), c ∈ natDigitsAux f n acc →
      c ∈ acc ∨ ∃ k, c = digitChar k := by
  intro f
  induction f with
  | zero => intro n acc h; exact Or.inl h
  | succ f ih =>
    intro n acc h
    unfold natDigitsAux at h
    split at h
    · rcases List.mem_cons.mp h with h | h
      · exact Or.inr ⟨n, h⟩
      · exact Or.inl h
    · rcases ih _ _ h with h | h
      · rcases List.mem_cons.mp h with h2 | h2
        · exact Or.inr ⟨n, h2⟩
        · exact Or.inl h2
      · exact Or.inr h

/-- Every character of a rendered number is a sign, a decimal point, a
zero, an exponent marker, or a digit — in particular never a space or a
comma. -/
lemma renderDec_chars {d : Dec} {c : Char} (h : c ∈ (renderDec d).data) :
    c ≠ ' ' ∧ c ≠ ',' := by
  have hdigit : ∀ k, c = digitChar k → c ≠ ' ' ∧ c ≠ ',' :=
    fun k hk => hk ▸ digitChar_ne k
  have hnd : ∀ m : Nat, c ∈ natDigits m → c ≠ ' ' ∧ c ≠ ',' := by
    intro m hm
    rcases mem_natDigitsAux _ _ _ hm with hm | ⟨k, hk⟩
    · cases hm
    · exact hdigit k hk
  have hrep : ∀ k : Nat, c ∈ List.replicate k '0' →
      c ≠ ' ' ∧ c ≠ ',' := by
    intro k hm
    rcases (List.mem_replicate.mp hm).2 with rfl
    exact ⟨by decide, by decide⟩
  have hsign : c ∈ (if d.num < 0 then "-" else "").data →
      c ≠ ' ' ∧ c ≠ ',' := by
    intro hm
    split at hm
    · rcases List.mem_singleton.mp hm with rfl
      exact ⟨by decide, by decide⟩
    · cases hm
  unfold renderDec at h
  dsimp only at h
  split at h
  · rcases List.mem_singleton.mp h with rfl
    exact ⟨by decide, by decide⟩
  · split at h
    · rw [String.data_append, String.data_append] at h
      rcases List.mem_append.mp h with hm | hm
      · rcases List.mem_append.mp hm with hm | hm
        · exact hsign hm
        · exact hnd _ hm
      · exact hrep _ hm
    · split at h
      · rw [String.data_append, String.data_append,
          String.data_append] at h
        rcases List.mem_append.mp h with hm | hm
        · rcases List.mem_append.mp hm with hm | hm
          · rcases List.mem_append.mp hm with hm | hm
            · exact hsign hm
            · exact hnd _ (List.take_subset _ _ hm)
          · rcases List.mem_singleton.mp hm with rfl
            exact ⟨by decide, by decide⟩
        · exact hnd _ (List.drop_subset _ _ hm)
      · split at h
        · rw [String.data_append, String.data_append,
            String.data_append] at h
          rcases List.mem_append.mp h with hm | hm
          · rcases List.mem_append.mp hm with hm | hm
            · rcases List.mem_append.mp hm with hm | hm
              · exact hsign hm
              · rcases List.mem_cons.mp hm with rfl | hm
                · exact ⟨by decide, by decide⟩
                · rcases List.mem_singleton.mp hm with rfl
                  exact ⟨by decide, by decide⟩
            · exact hrep _ hm
          · exact hnd _ hm
        · rw [String.data_append, String.data_append, String.data_append,
            String.data_append, String.data_append] at h
          rcases List.mem_append.mp h with hm | hm
          · rcases List.mem_append.mp hm with hm | hm
            · rcases List.mem_append.mp hm with hm | hm
              · rcases List.mem_append.mp hm with hm | hm
                · rcases List.mem_append.mp hm with hm | hm
                  · exact hsign hm
                  · exact hnd _ (List.take_subset _ _ hm)
                · split at hm
                  · cases hm
                  · rw [String.data_append] at hm
                    rcases List.mem_append.mp hm with hm | hm
                    · rcases List.mem_singleton.mp hm with rfl
                      exact ⟨by decide, by decide⟩
                    · exact hnd _ (List.drop_subset _ _ hm)
              · rcases List.mem_singleton.mp hm with rfl
                exact ⟨by decide, by decide⟩
            · split at hm
              · rcases List.mem_singleton.mp hm with rfl
                exact ⟨by decide, by decide⟩
              · rcases List.mem_singleton.mp hm with rfl
                exact ⟨by decide, by decide⟩
          · exact hnd _ hm

end CoordTrans

namespace CoordTrans

/-- The initial UI state satisfies the loading invariant. -/
lemma uiInv_init : UiInv initUi := by
  constructor <;> simp [initUi]

/-- Every UI event preserves the loading invariant. -/
lemma uiStep_inv {s : UiState} (h : UiInv s) (e : UiEvent) :
    UiInv (uiStep s e).1 := by
  obtain ⟨h1, h2⟩ := h
  cases e with
  | submitGeo a c =>
    cases hg : onFinishGeo s.loading a c with
    | request addr city =>
      have hl : s.loading = false := by
        cases hsl : s.loading
        · rfl
        · rw [hsl, onFinishGeo_loading] at hg
          simp at hg
      have h0 : s.inFlight = 0 := by
        rw [hl] at h2
        simp only [Bool.false_eq_true, false_iff] at h2
        omega
      simp [uiStep, hg, UiInv, h0]
    | blockedLoading =>
      simp only [uiStep, hg]
      exact ⟨h1, h2⟩
    | warn m =>
      simp only [uiStep, hg]
      exact ⟨h1, h2⟩
  | submitRegeo l =>
    cases hg : onFinishRegeo s.loading l with
    | request body =>
      have hl : s.loading = false := by
        cases hsl : s.loading
        · rfl
        · rw [hsl, onFinishRegeo_loading] at hg
          simp at hg
      have h0 : s.inFlight = 0 := by
        rw [hl] at h2
        simp only [Bool.false_eq_true, false_iff] at h2
        omega
      simp [uiStep, hg, UiInv, h0]
    | blockedLoading =>
      simp only [uiStep, hg]
      exact ⟨h1, h2⟩
    | warn m =>
      simp only [uiStep, hg]
      exact ⟨h1, h2⟩
  | settleSuccess =>
    refine ⟨by simp only [uiStep]; omega, ?_⟩
    simp only [uiStep]
    constructor
    · intro hc
      exact absurd hc (by simp)
    · intro hc
      exact absurd hc (by omega)
  | settleFailure =>
    refine ⟨by simp only [uiStep]; omega, ?_⟩
    simp only [uiStep]
    constructor
    · intro hc
      exact absurd hc (by simp)
    · intro hc
      exact absurd hc (by omega)

/-- The loading invariant holds after any sequence of UI events. -/
lemma uiRun_inv (es : List UiEvent) : ∀ s, UiInv s → UiInv (uiRun s es) := by
  induction es with
  | nil => intro s h; exact h
  | cons e es ih =>
    intro s h
    exact ih _ (uiStep_inv h e)

end CoordTrans

namespace CoordTrans

/-- A `String.mk` is the empty string exactly when its character list
is empty. -/
lemma mk_eq_empty_iff {l : List Char} : String.mk l = "" ↔ l = [] := by
  constructor
  · intro h
    simpa using congrArg String.data h
  · rintro rfl
    rfl

/-- A two-field split is impossible for an empty location input. -/
lemma regeoParts_ne_two_of_nil {l : Option String}
    {lonStr latStr : List Char}
    (hsplit : regeoParts l = [lonStr, latStr]) :
    trimChars (l.getD "").data ≠ [] := by
  intro h0
  unfold regeoParts at hsplit
  rw [h0] at hsplit
  simp [splitComma] at hsplit

/-- Evaluation of `onFinishRegeo` once the input splits into two
number-parsing fields: only the range check remains. -/
lemma onFinishRegeo_eval {l : Option String} {lonStr latStr : List Char}
    {lon lat : Dec}
    (hsplit : regeoParts l = [lonStr, latStr])
    (hlon : jsNumberChars lonStr = some lon)
    (hlat : jsNumberChars latStr = some lat) :
    onFinishRegeo false l =
      if lon.ltInt (-180) || lon.gtInt 180 ||
          lat.ltInt (-90) || lat.gtInt 90
      then .warn msgRange
      else .request (renderDec lon ++ "," ++ renderDec lat) := by
  have hne := regeoParts_ne_two_of_nil hsplit
  unfold regeoParts at hsplit
  unfold onFinishRegeo
  dsimp only
  rw [if_neg (by simp)]
  rw [if_neg (by simpa [List.isEmpty_iff] using hne)]
  rw [hsplit]
  dsimp only
  rw [hlon, hlat]

end CoordTrans

namespace CoordTrans

/-- Inversion: a dispatched reverse-geocode request comes from an input
that split into exactly two fields, both parsed as numbers, both within
range, and the transmitted body is the re-rendered pair. -/
lemma regeo_request_inv {loading : Bool} {l : Option String} {b : String}
    (h : onFinishRegeo loading l = .request b) :
    ∃ lonStr latStr lon lat,
      regeoParts l = [lonStr, latStr] ∧
      jsNumberChars lonStr = some lon ∧
      jsNumberChars latStr = some lat ∧
      (lon.ltInt (-180) || lon.gtInt 180 ||
        lat.ltInt (-90) || lat.gtInt 90) = false ∧
      b = renderDec lon ++ "," ++ renderDec lat := by
  unfold onFinishRegeo at h
  split at h
  · exact absurd h (by simp)
  · dsimp only at h
    split at h
    · exact absurd h (by simp)
    · split at h
      · rename_i lonStr latStr heq
        split at h
        · rename_i lon lat heq1 heq2
          split at h
          · exact absurd h (by simp)
          · rename_i hcond
            simp only [RegeoAction.request.injEq] at h
            exact ⟨lonStr, latStr, lon, lat, heq, heq1, heq2,
              Bool.not_eq_true _ ▸ hcond, h.symm⟩
        · exact absurd h (by simp)
      · exact absurd h (by simp)

/-- Shape of the non-loading reverse-geocode handler result: always a
warning or a request. -/
lemma onFinishRegeo_false_shape (l : Option String) :
    (∃ m, onFinishRegeo false l = .warn m) ∨
    ∃ b, onFinishRegeo false l = .request b := by
  unfold onFinishRegeo
  dsimp only
  rw [if_neg (by simp)]
  split
  · exact Or.inl ⟨_, rfl⟩
  · split
    · split
      · split
        · exact Or.inl ⟨_, rfl⟩
        · exact Or.inr ⟨_, rfl⟩
      · exact Or.inl ⟨_, rfl⟩
    · exact Or.inl ⟨_, rfl⟩

end CoordTrans

namespace CoordTrans

open Backend in
/-- Claim C1: for every batch of N input rows with 1 ≤ N ≤ the
configured maximum, the Batch Executor run reaches a terminal state for
every concurrency limit ≥ 1, and in every reachable terminal state —
regardless of the order in which the concurrent provider calls
completed — the outcome has exactly N entries, the entry at position i
pairing input row i with its recorded result. -/
theorem C1_batch_outcome_index_aligned (rows : List Row) (p : Provider)
    (limit : Nat) (hlim : 1 ≤ limit) (_hlo : 1 ≤ rows.length)
    (_hhi : rows.length ≤ MAX_BATCH_SIZE) :
    (∃ t, ExecReach rows p limit t ∧ ExecTerminal rows t) ∧
    ∀ t, ExecReach rows p limit t → ExecTerminal rows t →
      (outcomeOf rows t).length = rows.length ∧
      ∀ i r, rows[i]? = some r →
        (outcomeOf rows t)[i]? = some (r, some (expectedAt p rows i)) :=
  ⟨exec_exists rows p hlim, fun _ hr ht => exec_correct hr ht⟩

/-- Witness for C1: a concrete two-row batch (one valid row, one
validation failure) under concurrency limit 2 reaches a terminal
state. -/
theorem C1_batch_outcome_index_aligned_witness :
    ∃ t, Backend.ExecReach
        [⟨0, [], some (.geocode "北京市朝阳区阜通东大街6号" none), none⟩,
         ⟨1, [], none, some "address required"⟩]
        (fun _ _ => Backend.mkSuccess [("location", "116.48,39.99")]) 2 t ∧
      Backend.ExecTerminal
        [⟨0, [], some (.geocode "北京市朝阳区阜通东大街6号" none), none⟩,
         ⟨1, [], none, some "address required"⟩] t :=
  (C1_batch_outcome_index_aligned _ _ 2 (by decide) (by decide)
    (by decide)).1

open Backend in
/-- Claim C2: a provider failure on row k never aborts the batch — a
terminal state still exists, with one outcome entry per input row — and
the outcome entry of every row j ≠ k is the same under any two
providers that agree outside row k, i.e. unaffected by k's failure. -/
theorem C2_row_failure_isolation (rows : List Row)
    (p₁ p₂ : Provider) (limit k : Nat) (hlim : 1 ≤ limit)
    (_hfail : ∀ q, (p₁ k q).status = .failure)
    (hagree : ∀ j q, j ≠ k → p₁ j q = p₂ j q) :
    (∃ t, ExecReach rows p₁ limit t ∧ ExecTerminal rows t) ∧
    ∀ t₁ t₂, ExecReach rows p₁ limit t₁ → ExecTerminal rows t₁ →
      ExecReach rows p₂ limit t₂ → ExecTerminal rows t₂ →
      (outcomeOf rows t₁).length = rows.length ∧
      ∀ j r, j ≠ k → rows[j]? = some r →
        (outcomeOf rows t₁)[j]? = (outcomeOf rows t₂)[j]? := by
  refine ⟨exec_exists rows p₁ hlim, fun t₁ t₂ hr1 ht1 hr2 ht2 => ?_⟩
  refine ⟨(exec_correct hr1 ht1).1, fun j r hj hrj => ?_⟩
  rw [(exec_correct hr1 ht1).2 j r hrj, (exec_correct hr2 ht2).2 j r hrj,
    expectedAt_congr hagree hj]

/-- Witness for C2: three rows, provider failing exactly on row 1,
concurrency limit 2: the batch still reaches a terminal state. -/
theorem C2_row_failure_isolation_witness :
    ∃ t, Backend.ExecReach
        [⟨0, [], some (.geocode "a" none), none⟩,
         ⟨1, [], some (.geocode "b" none), none⟩,
         ⟨2, [], some (.geocode "c" none), none⟩]
        (fun i _ => if i = 1 then Backend.mkFailure "boom"
                    else Backend.mkSuccess []) 2 t ∧
      Backend.ExecTerminal
        [⟨0, [], some (.geocode "a" none), none⟩,
         ⟨1, [], some (.geocode "b" none), none⟩,
         ⟨2, [], some (.geocode "c" none), none⟩] t :=
  (C2_row_failure_isolation _ _
    (fun _ _ => Backend.mkSuccess []) 2 1 (by decide)
    (fun q => rfl) (by intro j q hj; simp [hj])).1

open Backend in
/-- Claim C8: with a fixed (deterministic) provider, any two terminal
runs of the batch pipeline on the same input rows — under any two
concurrency limits and any two completion orders — produce the same
batch outcome and hence the identical exported file. -/
theorem C8_two_run_determinism (rows : List Row) (p : Provider)
    (l₁ l₂ : Nat) (h1 : 1 ≤ l₁) (h2 : 1 ≤ l₂) :
    (∃ t, ExecReach rows p l₁ t ∧ ExecTerminal rows t) ∧
    (∃ t, ExecReach rows p l₂ t ∧ ExecTerminal rows t) ∧
    ∀ t₁ t₂, ExecReach rows p l₁ t₁ → ExecTerminal rows t₁ →
      ExecReach rows p l₂ t₂ → ExecTerminal rows t₂ →
      exportFile (outcomeOf rows t₁) = exportFile (outcomeOf rows t₂) := by
  refine ⟨exec_exists rows p h1, exec_exists rows p h2,
    fun t₁ t₂ hr1 ht1 hr2 ht2 => ?_⟩
  have e1 := terminal_slots_list (execInv_reach hr1) ht1
  have e2 := terminal_slots_list (execInv_reach hr2) ht2
  unfold outcomeOf
  rw [e1, e2]

/-- Witness for C8: a concrete one-row batch under limits 1 and 3. -/
theorem C8_two_run_determinism_witness :
    ∃ t, Backend.ExecReach [⟨0, [], some (.geocode "a" none), none⟩]
        (fun _ _ => Backend.mkSuccess [("location", "1,2")]) 1 t ∧
      Backend.ExecTerminal [⟨0, [], some (.geocode "a" none), none⟩] t :=
  (C8_two_run_determinism _
    (fun _ _ => Backend.mkSuccess [("location", "1,2")]) 1 3
    (by decide) (by decide)).1

end CoordTrans

namespace CoordTrans

/-- Claim C6: every invocation of the Provider Client fetch makes at
most two outbound attempts; the single retry is taken exactly when the
first attempt failed transiently (network/timeout failure or
provider-reported transient error); every failure is returned as a
Failure value carrying a reason — fetch is a total function, so no
exception crosses its boundary. -/
theorem C6_fetch_retry_bounds (env : Nat → Backend.AttemptResult) :
    (Backend.fetchRun env).2 ≤ 2 ∧
    ((Backend.fetchRun env).2 = 2 ↔ (env 0).isTransient = true) ∧
    ((Backend.fetchRun env).1.status = .failure →
      ∃ reason, (Backend.fetchRun env).1.errorReason = some reason) := by
  unfold Backend.fetchRun
  cases h0 : env 0 with
  | ok p =>
    simp [Backend.AttemptResult.isTransient, Backend.mkSuccess]
  | fatal r =>
    simp [Backend.AttemptResult.isTransient, Backend.mkFailure]
  | transient r =>
    cases h1 : env 1 <;>
      simp [Backend.AttemptResult.isTransient, Backend.mkSuccess,
        Backend.mkFailure]

/-- Witness for C6: a transiently failing then fatally failing oracle
uses exactly two attempts and returns a failure with its reason. -/
theorem C6_fetch_retry_bounds_witness :
    (Backend.fetchRun (fun n => if n = 0 then .transient "timeout"
        else .fatal "down")).2 = 2 ∧
    (Backend.fetchRun (fun n => if n = 0 then .transient "timeout"
        else .fatal "down")).1.errorReason = some "down" :=
  ⟨(C6_fetch_retry_bounds _).2.1.mpr (by decide), by decide⟩

/-- Claim C7: every selected upload file larger than MAX_FILE_SIZE
(10*1024*1024 bytes) is refused by the client-side beforeUpload check
with Upload.LIST_IGNORE and an error message, and no batch request is
dispatched for it. -/
theorem C7_oversized_upload_rejected (f : UploadFile)
    (hsize : MAX_FILE_SIZE < f.size) :
    (∃ m, beforeUpload f = .listIgnore m) ∧
    ∀ kind, uploadDispatch f kind = none := by
  have hbu : ∃ m, beforeUpload f = .listIgnore m := by
    unfold beforeUpload
    dsimp only
    split
    · exact ⟨msgBadType, rfl⟩
    · exact ⟨msgTooLarge, rfl⟩
  obtain ⟨m, hm⟩ := hbu
  refine ⟨⟨m, hm⟩, fun kind => ?_⟩
  unfold uploadDispatch
  rw [hm]

/-- Witness for C7: a well-named xlsx file of 10485761 bytes is
refused and never uploaded. -/
theorem C7_oversized_upload_rejected_witness :
    (∃ m, beforeUpload ⟨"data.xlsx", "", 10485761⟩ = .listIgnore m) ∧
    ∀ kind, uploadDispatch ⟨"data.xlsx", "", 10485761⟩ kind = none :=
  C7_oversized_upload_rejected _ (by decide)

/-- Claim C10: the loading flag gives mutual exclusion for single
queries: after any event sequence at most one request is in flight and
the flag is set exactly while one is; while the flag is set, any
further geocode or reverse-geocode submission leaves the state
unchanged and issues no network request; settling the pending request
(success or failure) clears the flag; and the flag becomes set only by
a submission that issues a request. -/
theorem C10_loading_flag_mutex :
    (∀ es : List UiEvent, (uiRun initUi es).inFlight ≤ 1 ∧
      ((uiRun initUi es).loading = true ↔
        (uiRun initUi es).inFlight = 1)) ∧
    (∀ (s : UiState) (a c : Option String), s.loading = true →
      uiStep s (.submitGeo a c) = (s, none)) ∧
    (∀ (s : UiState) (l : Option String), s.loading = true →
      uiStep s (.submitRegeo l) = (s, none)) ∧
    (∀ s : UiState, (uiStep s .settleSuccess).1.loading = false ∧
      (uiStep s .settleFailure).1.loading = false) ∧
    (∀ (s : UiState) (e : UiEvent), s.loading = false →
      (uiStep s e).1.loading = true → ∃ r, (uiStep s e).2 = some r) := by
  refine ⟨fun es => uiRun_inv es initUi uiInv_init, ?_, ?_,
    fun s => ⟨rfl, rfl⟩, ?_⟩
  · intro s a c hl
    simp only [uiStep]
    rw [hl, onFinishGeo_loading]
  · intro s l hl
    simp only [uiStep]
    rw [hl, onFinishRegeo_loading]
  · intro s e hl hset
    cases e with
    | submitGeo a c =>
      cases hg : onFinishGeo s.loading a c with
      | request addr city => exact ⟨.geo addr city, by simp [uiStep, hg]⟩
      | blockedLoading =>
        simp only [uiStep, hg] at hset
        exact absurd (hl ▸ hset) (by simp)
      | warn m =>
        simp only [uiStep, hg] at hset
        exact absurd (hl ▸ hset) (by simp)
    | submitRegeo l =>
      cases hg : onFinishRegeo s.loading l with
      | request body => exact ⟨.regeo body, by simp [uiStep, hg]⟩
      | blockedLoading =>
        simp only [uiStep, hg] at hset
        exact absurd (hl ▸ hset) (by simp)
      | warn m =>
        simp only [uiStep, hg] at hset
        exact absurd (hl ▸ hset) (by simp)
    | settleSuccess =>
      simp only [uiStep] at hset
      exact absurd hset (by simp)
    | settleFailure =>
      simp only [uiStep] at hset
      exact absurd hset (by simp)

/-- Witness for C10: after an accepted submission (flag set, one
request in flight), a second submission is a no-op. -/
theorem C10_loading_flag_mutex_witness :
    uiStep ⟨true, 1⟩ (.submitGeo (some "北京") none) = (⟨true, 1⟩, none) :=
  C10_loading_flag_mutex.2.1 ⟨true, 1⟩ (some "北京") none rfl

end CoordTrans

namespace CoordTrans

/-- A false lower-bound comparison means the value is at least the
bound. -/
lemma Dec.ltInt_false {d : Dec} {z : Int} (h : d.ltInt z = false) :
    (z : ℚ) ≤ d.toRat := by
  rw [← not_lt]
  intro hc
  rw [← Dec.ltInt_iff, h] at hc
  exact absurd hc (by simp)

/-- A false upper-bound comparison means the value is at most the
bound. -/
lemma Dec.gtInt_false {d : Dec} {z : Int} (h : d.gtInt z = false) :
    d.toRat ≤ (z : ℚ) := by
  rw [← not_lt]
  intro hc
  rw [← Dec.gtInt_iff, h] at hc
  exact absurd hc (by simp)

/-- Claim C3: a reverse-geocode input whose parsed longitude lies
outside [-180, 180] or whose parsed latitude lies outside [-90, 90] is
rejected at validation with the range-error message and never produces
a request; in particular the input "200,39.99". -/
theorem C3_range_validation_rejects :
    (∀ (l : Option String) (lonStr latStr : List Char) (lon lat : Dec),
      regeoParts l = [lonStr, latStr] →
      jsNumberChars lonStr = some lon →
      jsNumberChars latStr = some lat →
      (lon.toRat < -180 ∨ (180 : ℚ) < lon.toRat ∨
        lat.toRat < -90 ∨ (90 : ℚ) < lat.toRat) →
      onFinishRegeo false l = .warn msgRange ∧
      ∀ (loading : Bool) (b : String),
        onFinishRegeo loading l ≠ .request b) ∧
    (onFinishRegeo false (some "200,39.99") = .warn msgRange ∧
      ∀ (loading : Bool) (b : String),
        onFinishRegeo loading (some "200,39.99") ≠ .request b) := by
  have main : ∀ (l : Option String) (lonStr latStr : List Char)
      (lon lat : Dec),
      regeoParts l = [lonStr, latStr] →
      jsNumberChars lonStr = some lon →
      jsNumberChars latStr = some lat →
      (lon.toRat < -180 ∨ (180 : ℚ) < lon.toRat ∨
        lat.toRat < -90 ∨ (90 : ℚ) < lat.toRat) →
      onFinishRegeo false l = .warn msgRange ∧
      ∀ (loading : Bool) (b : String),
        onFinishRegeo loading l ≠ .request b := by
    intro l lonStr latStr lon lat hsplit hlon hlat hrange
    have hcond : (lon.ltInt (-180) || lon.gtInt 180 ||
        lat.ltInt (-90) || lat.gtInt 90) = true := by
      simp only [Bool.or_eq_true, Dec.ltInt_iff, Dec.gtInt_iff]
      push_cast
      tauto
    constructor
    · rw [onFinishRegeo_eval hsplit hlon hlat, if_pos hcond]
    · intro loading b hreq
      cases loading
      · rw [onFinishRegeo_eval hsplit hlon hlat, if_pos hcond] at hreq
        exact absurd hreq (by simp)
      · rw [onFinishRegeo_loading] at hreq
        exact absurd hreq (by simp)
  refine ⟨main, main (some "200,39.99") "200".data "39.99".data
    ⟨200, 0⟩ ⟨3999, 2⟩ (by decide) (by decide) (by decide) ?_⟩
  refine Or.inr (Or.inl ?_)
  norm_num [Dec.toRat]

/-- Claim C4: a malformed reverse-geocode input — one that does not
split into exactly two comma-separated fields, or that contains a field
not parsing as a number — yields a validation warning and never a
request; conversely every dispatched request comes from two parseable
in-range fields. -/
theorem C4_malformed_regeo_rejected :
    (∀ l : Option String,
      ((regeoParts l).length ≠ 2 ∨
        ∃ part ∈ regeoParts l, jsNumberChars part = none) →
      (∃ m, onFinishRegeo false l = .warn m) ∧
      ∀ (loading : Bool) (b : String),
        onFinishRegeo loading l ≠ .request b) ∧
    (∀ (loading : Bool) (l : Option String) (b : String),
      onFinishRegeo loading l = .request b →
      ∃ lonStr latStr lon lat,
        regeoParts l = [lonStr, latStr] ∧
        jsNumberChars lonStr = some lon ∧
        jsNumberChars latStr = some lat ∧
        -180 ≤ lon.toRat ∧ lon.toRat ≤ 180 ∧
        -90 ≤ lat.toRat ∧ lat.toRat ≤ 90) := by
  constructor
  · intro l hmal
    rcases onFinishRegeo_false_shape l with ⟨m, hm⟩ | ⟨b, hb⟩
    · refine ⟨⟨m, hm⟩, ?_⟩
      intro loading b hreq
      cases loading
      · rw [hm] at hreq
        exact absurd hreq (by simp)
      · rw [onFinishRegeo_loading] at hreq
        exact absurd hreq (by simp)
    · exfalso
      obtain ⟨lonStr, latStr, lon, lat, hsplit, hlon, hlat, _, _⟩ :=
        regeo_request_inv hb
      rcases hmal with hlen | ⟨part, hpart, hnone⟩
      · rw [hsplit] at hlen
        simp at hlen
      · rw [hsplit] at hpart
        simp only [List.mem_cons, List.not_mem_nil, or_false] at hpart
        rcases hpart with rfl | rfl
        · rw [hnone] at hlon
          cases hlon
        · rw [hnone] at hlat
          cases hlat
  · intro loading l b h
    obtain ⟨lonStr, latStr, lon, lat, hsplit, hlon, hlat, hcond, _⟩ :=
      regeo_request_inv h
    simp only [Bool.or_eq_false_iff] at hcond
    obtain ⟨⟨⟨h1, h2⟩, h3⟩, h4⟩ := hcond
    refine ⟨lonStr, latStr, lon, lat, hsplit, hlon, hlat, ?_, ?_, ?_, ?_⟩
    · have := Dec.ltInt_false h1
      push_cast at this
      exact this
    · have := Dec.gtInt_false h2
      push_cast at this
      exact this
    · have := Dec.ltInt_false h3
      push_cast at this
      exact this
    · have := Dec.gtInt_false h4
      push_cast at this
      exact this

/-- Witness for C4: the three-field input "1,2,3" is rejected with a
warning and never produces a request. -/
theorem C4_malformed_regeo_rejected_witness :
    (∃ m, onFinishRegeo false (some "1,2,3") = .warn m) ∧
    ∀ (loading : Bool) (b : String),
      onFinishRegeo loading (some "1,2,3") ≠ .request b :=
  C4_malformed_regeo_rejected.1 (some "1,2,3") (Or.inl (by decide))

/-- Claim C9: every dispatched reverse-geocode request transmits the
canonical re-rendered form of the two parsed numbers, joined by a
single comma, with no space or comma inside either rendering; the
input " 116.48 , 39.99 " is transmitted as "116.48,39.99". -/
theorem C9_canonical_location_body :
    (∀ (loading : Bool) (l : Option String) (b : String),
      onFinishRegeo loading l = .request b →
      ∃ lonStr latStr lon lat,
        regeoParts l = [lonStr, latStr] ∧
        jsNumberChars lonStr = some lon ∧
        jsNumberChars latStr = some lat ∧
        b = renderDec lon ++ "," ++ renderDec lat ∧
        (∀ c ∈ (renderDec lon).data, c ≠ ' ' ∧ c ≠ ',') ∧
        (∀ c ∈ (renderDec lat).data, c ≠ ' ' ∧ c ≠ ',')) ∧
    onFinishRegeo false (some " 116.48 , 39.99 ") =
      .request "116.48,39.99" := by
  refine ⟨?_, by decide⟩
  intro loading l b h
  obtain ⟨lonStr, latStr, lon, lat, hsplit, hlon, hlat, _, hb⟩ :=
    regeo_request_inv h
  exact ⟨lonStr, latStr, lon, lat, hsplit, hlon, hlat, hb,
    fun c hc => renderDec_chars hc, fun c hc => renderDec_chars hc⟩

/-- Witness for C9: the inversion applied to the concrete accepted
input " 116.48 , 39.99 ". -/
theorem C9_canonical_location_body_witness :
    ∃ lonStr latStr lon lat,
      regeoParts (some " 116.48 , 39.99 ") = [lonStr, latStr] ∧
      jsNumberChars lonStr = some lon ∧
      jsNumberChars latStr = some lat ∧
      "116.48,39.99" = renderDec lon ++ "," ++ renderDec lat ∧
      (∀ c ∈ (renderDec lon).data, c ≠ ' ' ∧ c ≠ ',') ∧
      (∀ c ∈ (renderDec lat).data, c ≠ ' ' ∧ c ≠ ',') :=
  C9_canonical_location_body.1 false (some " 116.48 , 39.99 ")
    "116.48,39.99" (by decide)

end CoordTrans

namespace CoordTrans

/-- Witness for C3: the concrete out-of-range input "200,39.99" with
its parsed fields. -/
theorem C3_range_validation_rejects_witness :
    onFinishRegeo false (some "200,39.99") = .warn msgRange ∧
    ∀ (loading : Bool) (b : String),
      onFinishRegeo loading (some "200,39.99") ≠ .request b :=
  C3_range_validation_rejects.1 (some "200,39.99") "200".data
    "39.99".data ⟨200, 0⟩ ⟨3999, 2⟩ (by decide) (by decide) (by decide)
    (Or.inr (Or.inl (by norm_num [Dec.toRat])))

/-- Claim C5: a geocode request is dispatched only with a non-empty
trimmed address, carrying the trimmed address and the optional trimmed
city (null when absent or blank); an address trimming to empty yields
the validation warning and no request. -/
theorem C5_geocode_requires_address :
    (∀ (loading : Bool) (a c : Option String) (addr : String)
        (city : Option String),
      onFinishGeo loading a c = .request addr city →
      addr = jsTrim (a.getD "") ∧ addr ≠ "" ∧
      city = (match c with
              | none => none
              | some cc =>
                if jsTrim cc = "" then none else some (jsTrim cc))) ∧
    ∀ (a c : Option String), jsTrim (a.getD "") = "" →
      onFinishGeo false a c = .warn msgEmptyAddress := by
  constructor
  · intro loading a c addr city h
    unfold onFinishGeo at h
    split at h
    · exact absurd h (by simp)
    · dsimp only at h
      split at h
      · exact absurd h (by simp)
      · rename_i hne
        simp only [GeoAction.request.injEq] at h
        obtain ⟨haddr, hcity⟩ := h
        refine ⟨haddr.symm, ?_, ?_⟩
        · rw [← haddr]
          intro hc
          rw [mk_eq_empty_iff] at hc
          apply hne
          rw [hc]
          rfl
        · rw [← hcity]
          cases c with
          | none => rfl
          | some cc =>
            dsimp only
            by_cases hcc : trimChars cc.data = []
            · rw [if_pos (by rw [hcc]; rfl),
                if_pos (by unfold jsTrim; exact mk_eq_empty_iff.mpr hcc)]
            · rw [if_neg ?hL, if_neg ?hR]
              · rfl
              case hL =>
                simpa [List.isEmpty_iff] using hcc
              case hR =>
                unfold jsTrim
                intro hc
                exact hcc (mk_eq_empty_iff.mp hc)
  · intro a c h
    unfold jsTrim at h
    rw [mk_eq_empty_iff] at h
    unfold onFinishGeo
    dsimp only
    rw [if_neg (by simp)]
    rw [if_pos (by rw [h]; rfl)]

/-- Witness for C5: the address " 北京 " with blank city dispatches the
trimmed address and a null city. -/
theorem C5_geocode_requires_address_witness :
    "北京" = jsTrim ((some " 北京 ").getD "") ∧ "北京" ≠ "" ∧
    (none : Option String) =
      (match (some "  " : Option String) with
       | none => none
       | some cc =>
         if jsTrim cc = "" then none else some (jsTrim cc)) :=
  C5_geocode_requires_address.1 false (some " 北京 ") (some "  ")
    "北京" none (by decide)

end CoordTrans
